import Mathlib

/-!
Verification of the algebraic wiring core of the `quaternion_nodes`
repository (files `core.py` and `number.py`).

The embedding is shallow: Python classes become Lean structures, the
mutable `connections` lists of ports become explicit fields threaded
through state-passing functions, and the evaluation loop of
`get_output_values` becomes a `List.foldl` of per-row updates.  Numeric
values flowing through units are modelled as rationals: the code only
copies and negates them, both exact operations on Python floats.
Python object identity of ports (`is`) is modelled by a `pid` field;
node identity by a `node` field.  Table indices are natural numbers, as
in every table literal of the repository.
-/

namespace QuaternionNodes

/-- `MathUnitType` from core.py: enumeration of supported unit types. -/
inductive MathUnitType where
  | R | C1 | CI | Q1 | QI | QJ | QK
deriving DecidableEq, BEq, Inhabited, Repr

/-- `PortCategory` from core.py: enumeration of port categories (in/out). -/
inductive PortCategory where
  | INPUT | OUTPUT
deriving DecidableEq, Inhabited, Repr

/-- `PortType` from core.py: enumeration of port types. -/
inductive PortType where
  | R | I | QI | QJ | QK
deriving DecidableEq, Inhabited, Repr

/-- `MathUnitConfig` from core.py. -/
structure MathUnitConfig where
  number_type : MathUnitType
  ports : List PortType
  title : String
  wiring_connections : List (Nat × Nat × Bool)
deriving DecidableEq, Inhabited, Repr

/-- `Port` from core.py.  `pid` models Python object identity of the
port, `node` models object identity of the owning node; `connections`
holds the `pid`s of the connected peer ports (a Python list of `Port`
references in the source). -/
structure Port where
  pid : Nat
  node : Nat
  port_category : PortCategory
  index : Nat
  type : PortType
  connections : List Nat
  enabled : Bool
deriving DecidableEq, Inhabited, Repr

/-- `Port.is_connected` from core.py: `len(self.connections) > 0`. -/
def Port.is_connected (p : Port) : Bool :=
  decide (0 < p.connections.length)

/-- `Port.can_connect_to` from core.py.  A pure predicate on the two
ports' attributes (it reads no connection state and mutates nothing). -/
def Port.can_connect_to (self other : Port) : Bool :=
  if ¬self.enabled ∨ ¬other.enabled then false
  else if other.pid = self.pid ∨ other.node = self.node then false
  else if self.port_category = other.port_category then false
  else if self.type ≠ other.type then false
  else true

/-- `Port.connect_to` from core.py.  The source mutates
`self.connections` and `other.connections`; here the two updated ports
are returned together with the boolean result. -/
def Port.connect_to (self other : Port) : Port × Port × Bool :=
  if ¬self.can_connect_to other then (self, other, false)
  else
    let self' :=
      if other.pid ∈ self.connections then self
      else { self with connections := self.connections ++ [other.pid] }
    let other' :=
      if self.pid ∈ other.connections then other
      else { other with connections := other.connections ++ [self.pid] }
    (self', other', true)

/-- `Port.disconnect_from` from core.py.  Python's `list.remove`
deletes the first occurrence, which is `List.erase`. -/
def Port.disconnect_from (self other : Port) : Port × Port × Bool :=
  if other.pid ∉ self.connections then (self, other, false)
  else
    let self' := { self with connections := self.connections.erase other.pid }
    let other' :=
      if self.pid ∈ other.connections then
        { other with connections := other.connections.erase self.pid }
      else other
    (self', other', true)

/-- `MathUnit` from core.py (attribute part; methods are defined
below). -/
structure MathUnit where
  number_type : MathUnitType
  title : String
  dimension : Nat
  input_ports : List Port
  output_ports : List Port
  wiring_connections : List (Nat × Nat × Bool)
deriving DecidableEq, Inhabited, Repr

/-- `MathUnit.__init__` together with `_create_ports` from core.py:
dimension is the number of listed port types, and one input and one
output port is created per port type, with fresh identities and empty
connection lists.  Port identities are represented by their position
(inputs first). -/
def mkMathUnit (nodeId : Nat) (config : MathUnitConfig) : MathUnit :=
  { number_type := config.number_type
    title := config.title
    dimension := config.ports.length
    input_ports := config.ports.enum.map (fun it =>
      { pid := it.1, node := nodeId, port_category := PortCategory.INPUT,
        index := it.1, type := it.2, connections := [], enabled := true })
    output_ports := config.ports.enum.map (fun it =>
      { pid := config.ports.length + it.1, node := nodeId,
        port_category := PortCategory.OUTPUT, index := it.1, type := it.2,
        connections := [], enabled := true })
    wiring_connections := config.wiring_connections }

/-- `MathUnit.is_input_port_active` from core.py.  The index is an
integer (the source explicitly guards `0 <= index`). -/
def MathUnit.is_input_port_active (u : MathUnit) (index : ℤ) : Bool :=
  if 0 ≤ index ∧ index < (u.input_ports.length : ℤ) then
    (u.input_ports.getD index.toNat default).is_connected
  else false

/-- `max(conn[1] for conn in wiring_connections)` over a nonempty
table (on naturals, folding from 0 agrees with Python's `max`). -/
def maxOutputIndex (conns : List (Nat × Nat × Bool)) : Nat :=
  (conns.map (fun c => c.2.1)).foldl max 0

/-- Length of the output vector built by `get_output_values`:
`max_output_idx + 1`, where `max_output_idx` is `-1` for an empty
table. -/
def outputLength (conns : List (Nat × Nat × Bool)) : Nat :=
  match conns with
  | [] => 0
  | _ => maxOutputIndex conns + 1

/-- One iteration of the `for` loop of `get_output_values`: skip the
row if `input_idx` is out of bounds, otherwise write the (possibly
negated) input value at `output_idx`. -/
def rowUpdate (input_values : List ℚ) (acc : List ℚ)
    (c : Nat × Nat × Bool) : List ℚ :=
  if c.1 < input_values.length then
    acc.set c.2.1
      (if c.2.2 then -(input_values.getD c.1 0) else input_values.getD c.1 0)
  else acc

/-- `MathUnit.get_output_values` from core.py: allocate
`[0.0] * (max_output_idx + 1)` and run the loop over the wiring
table. -/
def MathUnit.get_output_values (u : MathUnit) (input_values : List ℚ) : List ℚ :=
  u.wiring_connections.foldl (rowUpdate input_values)
    (List.replicate (outputLength u.wiring_connections) 0)

/-- State of `get_output_values` after processing the first `k` rows of
the wiring table (the loop of core.py stopped after `k` iterations). -/
def prefixEval (conns : List (Nat × Nat × Bool)) (input_values : List ℚ)
    (k : Nat) : List ℚ :=
  (conns.take k).foldl (rowUpdate input_values)
    (List.replicate (outputLength conns) 0)

/-- The last row of the table whose input index is in bounds of the
input list and whose output index is `o` — the "last writer" of output
entry `o`. -/
def lastInBoundsWrite (conns : List (Nat × Nat × Bool))
    (input_values : List ℚ) (o : Nat) : Option (Nat × Nat × Bool) :=
  (conns.filter (fun c =>
    decide (c.1 < input_values.length) && decide (c.2.1 = o))).getLast?

/-- The value a row writes: `-input[in_idx]` when the flip flag is set,
`input[in_idx]` otherwise. -/
def rowValue (input_values : List ℚ) (c : Nat × Nat × Bool) : ℚ :=
  if c.2.2 then -(input_values.getD c.1 0) else input_values.getD c.1 0

/-! The literal configuration table `MATH_UNIT_CONFIGS` of core.py. -/

def R_config : MathUnitConfig :=
  { number_type := .R, ports := [.R], title := "1",
    wiring_connections := [(0, 0, false)] }

def C1_config : MathUnitConfig :=
  { number_type := .C1, ports := [.R, .I], title := "1",
    wiring_connections := [(0, 0, false), (1, 1, false)] }

def CI_config : MathUnitConfig :=
  { number_type := .CI, ports := [.R, .I], title := "i",
    wiring_connections := [(0, 1, false), (1, 0, true)] }

def Q1_config : MathUnitConfig :=
  { number_type := .Q1, ports := [.R, .QI, .QJ, .QK], title := "1",
    wiring_connections := [(0, 0, false), (1, 1, false), (2, 2, false), (3, 3, false)] }

def QI_config : MathUnitConfig :=
  { number_type := .QI, ports := [.R, .QI, .QJ, .QK], title := "i",
    wiring_connections := [(0, 1, false), (1, 0, true), (2, 3, false), (3, 2, true)] }

def QJ_config : MathUnitConfig :=
  { number_type := .QJ, ports := [.R, .QI, .QJ, .QK], title := "j",
    wiring_connections := [(0, 2, false), (1, 3, true), (2, 0, true), (3, 1, false)] }

def QK_config : MathUnitConfig :=
  { number_type := .QK, ports := [.R, .QI, .QJ, .QK], title := "k",
    wiring_connections := [(0, 3, false), (1, 2, false), (2, 1, true), (3, 0, true)] }

/-- `MATH_UNIT_CONFIGS` from core.py, as an association list (a Python
dict with these seven keys). -/
def MATH_UNIT_CONFIGS : List (MathUnitType × MathUnitConfig) :=
  [(.R, R_config), (.C1, C1_config), (.CI, CI_config), (.Q1, Q1_config),
   (.QI, QI_config), (.QJ, QJ_config), (.QK, QK_config)]

/-- `create_math_unit` from core.py: `MATH_UNIT_CONFIGS.get(unit_type)`
and a `ValueError` ("Unsupported MathUnitType") on a missing key. -/
def create_math_unit (unit_type : MathUnitType) : Except String MathUnit :=
  match MATH_UNIT_CONFIGS.lookup unit_type with
  | none => .error "Unsupported MathUnitType"
  | some config => .ok (mkMathUnit 0 config)

/-! The eight biquaternion wiring tables of number.py.  They are not
part of `MATH_UNIT_CONFIGS`: each lives as a literal constant inside
the `draw_internal_wiring` override of a dedicated GUI class
(`BiQuaternionUnit1` … `BiQuaternionUnitiK`), paired here with the
class's title string. -/

def biquaternion_tables : List (String × List (Nat × Nat × Bool)) :=
  [("1", [(0, 0, false), (1, 1, false), (2, 2, false), (3, 3, false),
          (4, 4, false), (5, 5, false), (6, 6, false), (7, 7, false)]),
   ("i", [(0, 1, false), (1, 0, true), (2, 5, false), (3, 6, false),
          (4, 7, false), (5, 2, true), (6, 3, true), (7, 4, true)]),
   ("I", [(0, 2, false), (1, 5, false), (2, 0, true), (3, 4, false),
          (4, 3, false), (5, 1, false), (6, 7, true), (7, 6, true)]),
   ("iI", [(0, 5, false), (1, 2, true), (2, 1, true), (3, 7, false),
           (4, 6, true), (5, 0, true), (6, 4, true), (7, 3, false)]),
   ("J", [(0, 3, false), (1, 6, false), (2, 4, false), (3, 0, true),
          (4, 2, true), (5, 7, false), (6, 1, true), (7, 5, true)]),
   ("iJ", [(0, 6, false), (1, 3, true), (2, 7, false), (3, 1, false),
           (4, 5, false), (5, 4, true), (6, 0, true), (7, 2, true)]),
   ("K", [(0, 4, false), (1, 7, false), (2, 3, true), (3, 2, false),
          (4, 0, true), (5, 6, false), (6, 5, true), (7, 1, true)]),
   ("iK", [(0, 7, false), (1, 4, true), (2, 6, true), (3, 5, false),
           (4, 1, false), (5, 3, true), (6, 2, false), (7, 0, true)])]

/-! World model: a collection of ports identified by `pid`, acted on by
the two mutating operations of the `Port` class.  This models a GUI
session in which several nodes' ports get connected and
disconnected. -/

/-- A world is the list of all existing ports. -/
abbrev World := List Port

/-- Dereference a port identity in a world. -/
def findPort (w : World) (p : Nat) : Option Port :=
  w.find? (fun s => s.pid == p)

/-- Overwrite the port carrying the given `pid` with the new state. -/
def setPort (w : World) (s : Port) : World :=
  w.map (fun t => if t.pid = s.pid then s else t)

/-- One invocation of a mutating `Port` method, by port identities. -/
inductive PortOp where
  | connect (a b : Nat)
  | disconnect (a b : Nat)
deriving DecidableEq, Repr

/-- Interpret one `PortOp` on a world.  A call on a missing identity is
a no-op; a call of a port on itself follows the aliasing semantics of
the Python methods (for `connect_to` the guard fails and nothing
changes; for `disconnect_from` both `remove` calls act on the same
list). -/
def step (w : World) : PortOp → World
  | .connect a b =>
    match findPort w a, findPort w b with
    | some pa, some pb =>
      if a = b then w
      else
        let r := pa.connect_to pb
        setPort (setPort w r.1) r.2.1
    | _, _ => w
  | .disconnect a b =>
    match findPort w a, findPort w b with
    | some pa, some pb =>
      if a = b then
        if a ∈ pa.connections then
          let l1 := pa.connections.erase a
          let l2 := if a ∈ l1 then l1.erase a else l1
          setPort w { pa with connections := l2 }
        else w
      else
        let r := pa.disconnect_from pb
        setPort (setPort w r.1) r.2.1
    | _, _ => w

/-- Freshly constructed nodes: all ports distinct (distinct Python
objects) and no connection yet. -/
def Fresh (w : World) : Prop :=
  (w.map Port.pid).Nodup ∧ ∀ p ∈ w, p.connections = []

/-- The port-graph invariant: port identities are distinct, connection
lists are duplicate-free, no port is connected to itself or to a port
of the same node, and links are symmetric. -/
def Inv (w : World) : Prop :=
  (w.map Port.pid).Nodup ∧
  ∀ p ∈ w,
    p.connections.Nodup ∧
    p.pid ∉ p.connections ∧
    (∀ q ∈ w, q.pid ∈ p.connections → q.node ≠ p.node) ∧
    (∀ q ∈ w, (q.pid ∈ p.connections ↔ p.pid ∈ q.connections))

/-! Helper lemmas about the evaluation loop. -/

lemma foldl_rowUpdate_length (input : List ℚ) (conns : List (Nat × Nat × Bool)) :
    ∀ acc : List ℚ, (conns.foldl (rowUpdate input) acc).length = acc.length := by
  induction conns with
  | nil => intro acc; rfl
  | cons c cs ih =>
    intro acc
    rw [List.foldl_cons, ih]
    unfold rowUpdate
    split <;> simp

lemma le_foldl_max (l : List Nat) (a : Nat) : a ≤ l.foldl max a := by
  induction l generalizing a with
  | nil => exact le_refl a
  | cons x xs ih => exact le_trans (le_max_left a x) (ih (max a x))

lemma mem_le_foldl_max (l : List Nat) (a : Nat) : ∀ x ∈ l, x ≤ l.foldl max a := by
  induction l generalizing a with
  | nil => intro x hx; cases hx
  | cons y ys ih =>
    intro x hx
    rcases List.mem_cons.mp hx with rfl | h
    · exact le_trans (le_max_right a x) (le_foldl_max ys (max a x))
    · exact ih (max a y) x h

lemma out_lt_outputLength {conns : List (Nat × Nat × Bool)} {c : Nat × Nat × Bool}
    (hc : c ∈ conns) : c.2.1 < outputLength conns := by
  cases conns with
  | nil => cases hc
  | cons d ds =>
    have h : c.2.1 ≤ maxOutputIndex (d :: ds) :=
      mem_le_foldl_max _ 0 _ (List.mem_map_of_mem (fun c => c.2.1) hc)
    exact Nat.lt_succ_of_le h

lemma getD_set_self (l : List ℚ) (i : Nat) (v : ℚ) (h : i < l.length) :
    (l.set i v).getD i 0 = v := by
  simp [List.getD_eq_getElem?_getD, List.getElem?_set_self h]

lemma getD_set_ne (l : List ℚ) {i j : Nat} (v : ℚ) (h : i ≠ j) :
    (l.set i v).getD j 0 = l.getD j 0 := by
  simp [List.getD_eq_getElem?_getD, List.getElem?_set_ne h]

lemma getD_replicate_zero (n o : Nat) : (List.replicate n (0 : ℚ)).getD o 0 = 0 := by
  rw [List.getD_eq_getElem?_getD, List.getElem?_replicate]
  split <;> rfl

/-- Last-writer characterization of the evaluation loop, for an
arbitrary starting vector whose length bounds all output indices. -/
lemma foldl_rowUpdate_getD (input : List ℚ) (conns : List (Nat × Nat × Bool))
    (acc : List ℚ) (hout : ∀ c ∈ conns, c.2.1 < acc.length) (o : Nat) :
    (conns.foldl (rowUpdate input) acc).getD o 0 =
      match (conns.filter (fun c =>
          decide (c.1 < input.length) && decide (c.2.1 = o))).getLast? with
      | some c => rowValue input c
      | none => acc.getD o 0 := by
  induction conns using List.reverseRecOn with
  | nil => rfl
  | append_singleton cs c ih =>
    have hcs : ∀ d ∈ cs, d.2.1 < acc.length := fun d hd =>
      hout d (List.mem_append.mpr (Or.inl hd))
    have hc : c.2.1 < acc.length := hout c (List.mem_append.mpr (Or.inr (List.mem_singleton.mpr rfl)))
    have hlen : (cs.foldl (rowUpdate input) acc).length = acc.length :=
      foldl_rowUpdate_length input cs acc
    rw [List.foldl_append, List.foldl_cons, List.foldl_nil, List.filter_append]
    by_cases hin : c.1 < input.length
    · by_cases hto : c.2.1 = o
      · have hfc : (List.filter (fun c =>
            decide (c.1 < input.length) && decide (c.2.1 = o)) [c]) = [c] := by
          simp [List.filter, hin, hto]
        rw [hfc, List.getLast?_append]
        simp only [List.getLast?_singleton, Option.or_some]
        unfold rowUpdate
        rw [if_pos hin, hto]
        exact getD_set_self _ o _ (hto ▸ hlen ▸ hc)
      · have hfc : (List.filter (fun c =>
            decide (c.1 < input.length) && decide (c.2.1 = o)) [c]) = [] := by
          simp [List.filter, hin, hto]
        rw [hfc, List.getLast?_append]
        simp only [List.getLast?_nil, Option.none_or]
        unfold rowUpdate
        rw [if_pos hin, getD_set_ne _ _ hto]
        exact ih hcs
    · have hfc : (List.filter (fun c =>
          decide (c.1 < input.length) && decide (c.2.1 = o)) [c]) = [] := by
        simp [List.filter, hin]
      rw [hfc, List.getLast?_append]
      simp only [List.getLast?_nil, Option.none_or]
      unfold rowUpdate
      rw [if_neg hin]
      exact ih hcs

/-- C1: `get_output_values` builds a vector of length
`1 + max(output_index)` (0 for an empty table), starts every entry at
0, and each in-bounds table row writes the (sign-adjusted) input value
at its output index; the R unit maps `[]` to `[0.0]`. -/
theorem get_output_values_spec (u : MathUnit) (input : List ℚ) :
    (u.get_output_values input).length = outputLength u.wiring_connections
    ∧ (u.wiring_connections = [] → u.get_output_values input = [])
    ∧ (u.wiring_connections ≠ [] →
        (u.get_output_values input).length = 1 + maxOutputIndex u.wiring_connections)
    ∧ (∀ o : Nat, (prefixEval u.wiring_connections input 0).getD o 0 = 0)
    ∧ (∀ (k : Nat) (hk : k < u.wiring_connections.length),
        (u.wiring_connections.get ⟨k, hk⟩).1 < input.length →
        (prefixEval u.wiring_connections input (k + 1)).getD
            (u.wiring_connections.get ⟨k, hk⟩).2.1 0 =
          (if (u.wiring_connections.get ⟨k, hk⟩).2.2
            then -(input.getD (u.wiring_connections.get ⟨k, hk⟩).1 0)
            else input.getD (u.wiring_connections.get ⟨k, hk⟩).1 0))
    ∧ u.get_output_values input =
        prefixEval u.wiring_connections input u.wiring_connections.length
    ∧ (mkMathUnit 0 R_config).get_output_values [] = [0] := by
  refine ⟨?_, ?_, ?_, ?_, ?_, ?_, by decide⟩
  · rw [MathUnit.get_output_values, foldl_rowUpdate_length, List.length_replicate]
  · intro h
    rw [MathUnit.get_output_values, h]
    rfl
  · intro h
    rw [MathUnit.get_output_values, foldl_rowUpdate_length, List.length_replicate]
    cases hc : u.wiring_connections with
    | nil => exact absurd hc h
    | cons d ds => exact Nat.add_comm _ 1
  · intro o
    rw [prefixEval, List.take_zero, List.foldl_nil]
    exact getD_replicate_zero _ o
  · intro k hk hin
    have hget : u.wiring_connections[k]? = some (u.wiring_connections.get ⟨k, hk⟩) := by
      rw [List.getElem?_eq_getElem hk]
      rfl
    have htake : u.wiring_connections.take (k + 1) =
        u.wiring_connections.take k ++ [u.wiring_connections.get ⟨k, hk⟩] := by
      rw [List.take_succ, hget]
      rfl
    rw [prefixEval, htake, List.foldl_append, List.foldl_cons, List.foldl_nil]
    unfold rowUpdate
    rw [if_pos hin]
    have hlt : (u.wiring_connections.get ⟨k, hk⟩).2.1 <
        ((u.wiring_connections.take k).foldl (rowUpdate input)
          (List.replicate (outputLength u.wiring_connections) 0)).length := by
      rw [foldl_rowUpdate_length, List.length_replicate]
      exact out_lt_outputLength (List.get_mem _ _ _)
    exact getD_set_self _ _ _ hlt
  · rw [prefixEval, List.take_length]
    rfl

/-- Witness for C1 at the complex unit `i` with input `[1, 2]`: the
first table row `(0, 1, false)` writes input 0 to output entry 1. -/
theorem get_output_values_spec_witness :
    (prefixEval CI_config.wiring_connections [1, 2] 1).getD 1 0 = 1 := by
  have h := (get_output_values_spec (mkMathUnit 0 CI_config) [1, 2]).2.2.2.2.1 0
    (by decide) (by decide)
  exact h.trans (by decide)

/-- C2: every wiring table registered in `MATH_UNIT_CONFIGS` is a
bijection on `[0, dimension)`: its input indices and its output indices
are each a permutation of `0 .. dimension - 1`. -/
theorem catalog_tables_bijective :
    ∀ p ∈ MATH_UNIT_CONFIGS,
      (p.2.wiring_connections.map (fun c => c.1)).Perm
          (List.range p.2.ports.length)
      ∧ (p.2.wiring_connections.map (fun c => c.2.1)).Perm
          (List.range p.2.ports.length) := by
  intro p hp
  simp only [MATH_UNIT_CONFIGS, List.mem_cons, List.not_mem_nil, or_false] at hp
  rcases hp with rfl | rfl | rfl | rfl | rfl | rfl | rfl <;> decide

/-- Witness for C2 at the quaternion unit `i`. -/
theorem catalog_tables_bijective_witness :
    (QI_config.wiring_connections.map (fun c => c.1)).Perm
        (List.range QI_config.ports.length)
    ∧ (QI_config.wiring_connections.map (fun c => c.2.1)).Perm
        (List.range QI_config.ports.length) :=
  catalog_tables_bijective (.QI, QI_config) (by simp [MATH_UNIT_CONFIGS])

/-- C5: the complex unit `i` maps `[a, b]` to `[-b, a]` and has order
four; the quaternion unit `i` maps `[w, x, y, z]` to `[-x, w, -z, y]`. -/
theorem unit_i_actions (a b w x y z : ℚ) :
    (mkMathUnit 0 CI_config).get_output_values [a, b] = [-b, a]
    ∧ (mkMathUnit 0 CI_config).get_output_values
        ((mkMathUnit 0 CI_config).get_output_values
          ((mkMathUnit 0 CI_config).get_output_values
            ((mkMathUnit 0 CI_config).get_output_values [a, b]))) = [a, b]
    ∧ (mkMathUnit 0 QI_config).get_output_values [w, x, y, z] = [-x, w, -z, y] := by
  refine ⟨?_, ?_, ?_⟩ <;>
    simp [MathUnit.get_output_values, mkMathUnit, CI_config, QI_config,
      outputLength, maxOutputIndex, rowUpdate]

/-- C10: the evaluation loop has last-writer-wins semantics — for any
(possibly malformed) wiring table, each output entry holds the
sign-adjusted input value of the last in-bounds row targeting it, and 0
when no in-bounds row targets it. -/
theorem get_output_values_last_writer_wins (u : MathUnit) (input : List ℚ)
    (o : Nat) (_ho : o < outputLength u.wiring_connections) :
    (u.get_output_values input).getD o 0 =
      match lastInBoundsWrite u.wiring_connections input o with
      | some c => rowValue input c
      | none => 0 := by
  have hout : ∀ c ∈ u.wiring_connections,
      c.2.1 < (List.replicate (outputLength u.wiring_connections) (0 : ℚ)).length := by
    intro c hc
    rw [List.length_replicate]
    exact out_lt_outputLength hc
  rw [MathUnit.get_output_values, lastInBoundsWrite,
    foldl_rowUpdate_getD input u.wiring_connections _ hout o,
    getD_replicate_zero]

/-- Witness for C10 on a corrupt table with a duplicated output index:
the later row `(0, 0, true)` overwrites the earlier `(0, 0, false)`. -/
theorem get_output_values_last_writer_wins_witness :
    (MathUnit.get_output_values
        ⟨.R, "corrupt", 1, [], [], [(0, 0, false), (0, 0, true)]⟩ [1]).getD 0 0
      = (-1 : ℚ) := by
  have h := get_output_values_last_writer_wins
    ⟨.R, "corrupt", 1, [], [], [(0, 0, false), (0, 0, true)]⟩ [1] 0 (by decide)
  exact h.trans (by decide)

/-- C6: `can_connect_to` is symmetric in its two ports (it is embedded
as a pure function of the two port states, mutating nothing). -/
theorem can_connect_to_symm (a b : Port) :
    a.can_connect_to b = b.can_connect_to a := by
  unfold Port.can_connect_to
  split_ifs <;> simp_all <;> tauto

/-- C9: the factory succeeds exactly on registered tags; every tag of
the enumeration is registered, so it always returns a unit and the
error branch is reachable only for an unregistered tag. -/
theorem create_math_unit_total (t : MathUnitType) :
    ((create_math_unit t).isOk = (MATH_UNIT_CONFIGS.lookup t).isSome)
    ∧ ∃ u, create_math_unit t = .ok u := by
  cases t <;> exact ⟨by decide, ⟨_, rfl⟩⟩

/-! C4: tolerance of out-of-range indices. -/

lemma foldl_rowUpdate_filter (input : List ℚ) (conns : List (Nat × Nat × Bool)) :
    ∀ acc : List ℚ,
      conns.foldl (rowUpdate input) acc =
        (conns.filter (fun c => decide (c.1 < input.length))).foldl
          (rowUpdate input) acc := by
  induction conns with
  | nil => intro acc; rfl
  | cons c cs ih =>
    intro acc
    rw [List.foldl_cons, ih, List.filter_cons]
    by_cases h : c.1 < input.length
    · rw [if_pos (by simpa using h), List.foldl_cons]
    · rw [if_neg (by simpa using h),
        show rowUpdate input acc c = acc from if_neg h]

/-- C4: evaluation silently skips every wiring row whose input index is
out of bounds of the input list (the result is the same as if those
rows were absent, the output size still being computed from the full
table), and `is_input_port_active` returns `false` for every index
outside `[0, dimension)` instead of raising. -/
theorem out_of_range_tolerance (u : MathUnit) (input : List ℚ)
    (h : u.input_ports.length = u.dimension) :
    u.get_output_values input =
      (u.wiring_connections.filter (fun c => decide (c.1 < input.length))).foldl
        (rowUpdate input) (List.replicate (outputLength u.wiring_connections) 0)
    ∧ ∀ index : ℤ, (index < 0 ∨ (u.dimension : ℤ) ≤ index) →
        u.is_input_port_active index = false := by
  constructor
  · rw [MathUnit.get_output_values, foldl_rowUpdate_filter]
  · intro index hidx
    have hno : ¬(0 ≤ index ∧ index < (u.input_ports.length : ℤ)) := by
      rw [h]; omega
    rw [MathUnit.is_input_port_active, if_neg hno]

/-- Witness for C4 at the quaternion unit `i` with the too-short input
`[5]` and the out-of-range indices `-1` and `4`. -/
theorem out_of_range_tolerance_witness :
    (mkMathUnit 0 QI_config).get_output_values [5] =
      ((mkMathUnit 0 QI_config).wiring_connections.filter
          (fun c => decide (c.1 < ([5] : List ℚ).length))).foldl (rowUpdate [5])
        (List.replicate (outputLength (mkMathUnit 0 QI_config).wiring_connections) 0)
    ∧ (mkMathUnit 0 QI_config).is_input_port_active (-1) = false
    ∧ (mkMathUnit 0 QI_config).is_input_port_active 4 = false := by
  have h := out_of_range_tolerance (mkMathUnit 0 QI_config) [5] (by decide)
  exact ⟨h.1, h.2 (-1) (by decide), h.2 4 (by decide)⟩

/-! Helper lemmas for the port-graph invariant. -/

lemma can_connect_to_facts {a b : Port} (h : a.can_connect_to b = true) :
    b.pid ≠ a.pid ∧ b.node ≠ a.node := by
  unfold Port.can_connect_to at h
  split_ifs at h with h1 h2 h3 h4
  exact ⟨fun he => h2 (Or.inl he), fun hn => h2 (Or.inr hn)⟩

lemma pid_inj {w : World} (hw : (w.map Port.pid).Nodup) {p q : Port}
    (hp : p ∈ w) (hq : q ∈ w) (h : p.pid = q.pid) : p = q :=
  List.inj_on_of_nodup_map hw hp hq h

lemma findPort_mem {w : World} {i : Nat} {p : Port} (h : findPort w i = some p) :
    p ∈ w ∧ p.pid = i := by
  refine ⟨List.mem_of_find?_eq_some h, ?_⟩
  have hh := List.find?_some h
  simpa using hh

lemma setPort_eq_self {w : World} (hw : (w.map Port.pid).Nodup) {p : Port}
    (hp : p ∈ w) : setPort w p = w := by
  unfold setPort
  conv_rhs => rw [← List.map_id w]
  apply List.map_congr_left
  intro t ht
  by_cases h : t.pid = p.pid
  · rw [if_pos h]
    exact pid_inj hw hp ht h.symm
  · rw [if_neg h]
    rfl

lemma setPort_setPort_eq_map (w : World) (s₁ s₂ : Port) (hne : s₁.pid ≠ s₂.pid) :
    setPort (setPort w s₁) s₂ =
      w.map (fun t =>
        if t.pid = s₁.pid then s₁ else if t.pid = s₂.pid then s₂ else t) := by
  unfold setPort
  rw [List.map_map]
  apply List.map_congr_left
  intro t ht
  simp only [Function.comp]
  by_cases h1 : t.pid = s₁.pid
  · rw [if_pos h1, if_pos h1, if_neg hne]
  · rw [if_neg h1, if_neg h1]

lemma nodup_append_singleton {l : List Nat} {x : Nat} (hl : l.Nodup) (hx : x ∉ l) :
    (l ++ [x]).Nodup := by
  simp [List.nodup_append, hl, hx]

/-- The invariant survives replacing two linked-up ports `pa`, `pb` by
copies whose connection lists have gained each other's identity. -/
lemma Inv_map_augment {w : World} (hnodup : (w.map Port.pid).Nodup)
    (hport : ∀ p ∈ w,
      p.connections.Nodup ∧
      p.pid ∉ p.connections ∧
      (∀ q ∈ w, q.pid ∈ p.connections → q.node ≠ p.node) ∧
      (∀ q ∈ w, (q.pid ∈ p.connections ↔ p.pid ∈ q.connections)))
    {pa pb : Port} (hpa : pa ∈ w) (hpb : pb ∈ w) (hab : pa.pid ≠ pb.pid)
    (hnode : pb.node ≠ pa.node)
    (hmem : pb.pid ∉ pa.connections) (hmem' : pa.pid ∉ pb.connections) :
    Inv (w.map fun t =>
      if t.pid = pa.pid then { pa with connections := pa.connections ++ [pb.pid] }
      else if t.pid = pb.pid then { pb with connections := pb.connections ++ [pa.pid] }
      else t) := by
  set g : Port → Port := fun t =>
    if t.pid = pa.pid then { pa with connections := pa.connections ++ [pb.pid] }
    else if t.pid = pb.pid then { pb with connections := pb.connections ++ [pa.pid] }
    else t with hgdef
  have hgpid : ∀ t : Port, (g t).pid = t.pid := by
    intro t
    simp only [hgdef]
    by_cases h1 : t.pid = pa.pid
    · rw [if_pos h1]; exact h1.symm
    · rw [if_neg h1]
      by_cases h2 : t.pid = pb.pid
      · rw [if_pos h2]; exact h2.symm
      · rw [if_neg h2]
  have hgconn : ∀ t : Port, (g t).connections =
      if t.pid = pa.pid then pa.connections ++ [pb.pid]
      else if t.pid = pb.pid then pb.connections ++ [pa.pid]
      else t.connections := by
    intro t
    simp only [hgdef]
    by_cases h1 : t.pid = pa.pid
    · rw [if_pos h1, if_pos h1]
    · rw [if_neg h1, if_neg h1]
      by_cases h2 : t.pid = pb.pid
      · rw [if_pos h2, if_pos h2]
      · rw [if_neg h2, if_neg h2]
  have hgnode : ∀ t ∈ w, (g t).node = t.node := by
    intro t ht
    simp only [hgdef]
    by_cases h1 : t.pid = pa.pid
    · rw [if_pos h1, show t = pa from pid_inj hnodup ht hpa h1]
    · rw [if_neg h1]
      by_cases h2 : t.pid = pb.pid
      · rw [if_pos h2, show t = pb from pid_inj hnodup ht hpb h2]
      · rw [if_neg h2]
  constructor
  · have he : (w.map g).map Port.pid = w.map Port.pid := by
      rw [List.map_map]
      apply List.map_congr_left
      intro t _
      exact hgpid t
    rw [he]
    exact hnodup
  · intro p' hp'
    obtain ⟨t, ht, rfl⟩ := List.mem_map.mp hp'
    by_cases ht1 : t.pid = pa.pid
    · have hta : t = pa := pid_inj hnodup ht hpa ht1
      refine ⟨?_, ?_, ?_, ?_⟩
      · rw [hgconn t, if_pos ht1]
        exact nodup_append_singleton (hport pa hpa).1 hmem
      · rw [hgpid t, hgconn t, if_pos ht1, ht1]
        simp only [List.mem_append, List.mem_singleton]
        rintro (hin | heq)
        · exact (hport pa hpa).2.1 hin
        · exact hab heq
      · intro q' hq'
        obtain ⟨s, hs, rfl⟩ := List.mem_map.mp hq'
        rw [hgpid s, hgnode s hs, hgnode t ht, hgconn t, if_pos ht1, hta]
        simp only [List.mem_append, List.mem_singleton]
        rintro (hin | heq)
        · exact (hport pa hpa).2.2.1 s hs hin
        · rw [show s = pb from pid_inj hnodup hs hpb heq]
          exact hnode
      · intro q' hq'
        obtain ⟨s, hs, rfl⟩ := List.mem_map.mp hq'
        rw [hgpid s, hgpid t, hgconn t, hgconn s, if_pos ht1]
        by_cases hs1 : s.pid = pa.pid
        · rw [if_pos hs1, hta, hs1]
        · rw [if_neg hs1]
          by_cases hs2 : s.pid = pb.pid
          · rw [if_pos hs2, hta, hs2]
            simp [List.mem_append]
          · rw [if_neg hs2, hta]
            simp only [List.mem_append, List.mem_singleton]
            rw [or_iff_left hs2]
            exact (hport pa hpa).2.2.2 s hs
    · by_cases ht2 : t.pid = pb.pid
      · have htb : t = pb := pid_inj hnodup ht hpb ht2
        refine ⟨?_, ?_, ?_, ?_⟩
        · rw [hgconn t, if_neg ht1, if_pos ht2]
          exact nodup_append_singleton (hport pb hpb).1 hmem'
        · rw [hgpid t, hgconn t, if_neg ht1, if_pos ht2, ht2]
          simp only [List.mem_append, List.mem_singleton]
          rintro (hin | heq)
          · exact (hport pb hpb).2.1 hin
          · exact hab heq.symm
        · intro q' hq'
          obtain ⟨s, hs, rfl⟩ := List.mem_map.mp hq'
          rw [hgpid s, hgnode s hs, hgnode t ht, hgconn t, if_neg ht1, if_pos ht2, htb]
          simp only [List.mem_append, List.mem_singleton]
          rintro (hin | heq)
          · exact (hport pb hpb).2.2.1 s hs hin
          · rw [show s = pa from pid_inj hnodup hs hpa heq]
            exact hnode.symm
        · intro q' hq'
          obtain ⟨s, hs, rfl⟩ := List.mem_map.mp hq'
          rw [hgpid s, hgpid t, hgconn t, hgconn s, if_neg ht1, if_pos ht2]
          by_cases hs1 : s.pid = pa.pid
          · rw [if_pos hs1, htb, hs1]
            simp [List.mem_append]
          · rw [if_neg hs1]
            by_cases hs2 : s.pid = pb.pid
            · rw [if_pos hs2, htb, hs2]
            · rw [if_neg hs2, htb]
              simp only [List.mem_append, List.mem_singleton]
              rw [or_iff_left hs1]
              exact (hport pb hpb).2.2.2 s hs
      · refine ⟨?_, ?_, ?_, ?_⟩
        · rw [hgconn t, if_neg ht1, if_neg ht2]
          exact (hport t ht).1
        · rw [hgpid t, hgconn t, if_neg ht1, if_neg ht2]
          exact (hport t ht).2.1
        · intro q' hq'
          obtain ⟨s, hs, rfl⟩ := List.mem_map.mp hq'
          rw [hgpid s, hgnode s hs, hgnode t ht, hgconn t, if_neg ht1, if_neg ht2]
          exact (hport t ht).2.2.1 s hs
        · intro q' hq'
          obtain ⟨s, hs, rfl⟩ := List.mem_map.mp hq'
          rw [hgpid s, hgpid t, hgconn t, hgconn s, if_neg ht1, if_neg ht2]
          by_cases hs1 : s.pid = pa.pid
          · rw [if_pos hs1, hs1]
            simp only [List.mem_append, List.mem_singleton]
            rw [or_iff_left ht2]
            exact (hport t ht).2.2.2 pa hpa
          · rw [if_neg hs1]
            by_cases hs2 : s.pid = pb.pid
            · rw [if_pos hs2, hs2]
              simp only [List.mem_append, List.mem_singleton]
              rw [or_iff_left ht1]
              exact (hport t ht).2.2.2 pb hpb
            · rw [if_neg hs2]
              exact (hport t ht).2.2.2 s hs

/-- The invariant survives replacing two linked ports `pa`, `pb` by
copies whose connection lists have lost each other's identity. -/
lemma Inv_map_erase {w : World} (hnodup : (w.map Port.pid).Nodup)
    (hport : ∀ p ∈ w,
      p.connections.Nodup ∧
      p.pid ∉ p.connections ∧
      (∀ q ∈ w, q.pid ∈ p.connections → q.node ≠ p.node) ∧
      (∀ q ∈ w, (q.pid ∈ p.connections ↔ p.pid ∈ q.connections)))
    {pa pb : Port} (hpa : pa ∈ w) (hpb : pb ∈ w) :
    Inv (w.map fun t =>
      if t.pid = pa.pid then { pa with connections := pa.connections.erase pb.pid }
      else if t.pid = pb.pid then { pb with connections := pb.connections.erase pa.pid }
      else t) := by
  set g : Port → Port := fun t =>
    if t.pid = pa.pid then { pa with connections := pa.connections.erase pb.pid }
    else if t.pid = pb.pid then { pb with connections := pb.connections.erase pa.pid }
    else t with hgdef
  have hgpid : ∀ t : Port, (g t).pid = t.pid := by
    intro t
    simp only [hgdef]
    by_cases h1 : t.pid = pa.pid
    · rw [if_pos h1]; exact h1.symm
    · rw [if_neg h1]
      by_cases h2 : t.pid = pb.pid
      · rw [if_pos h2]; exact h2.symm
      · rw [if_neg h2]
  have hgconn : ∀ t : Port, (g t).connections =
      if t.pid = pa.pid then pa.connections.erase pb.pid
      else if t.pid = pb.pid then pb.connections.erase pa.pid
      else t.connections := by
    intro t
    simp only [hgdef]
    by_cases h1 : t.pid = pa.pid
    · rw [if_pos h1, if_pos h1]
    · rw [if_neg h1, if_neg h1]
      by_cases h2 : t.pid = pb.pid
      · rw [if_pos h2, if_pos h2]
      · rw [if_neg h2, if_neg h2]
  have hgnode : ∀ t ∈ w, (g t).node = t.node := by
    intro t ht
    simp only [hgdef]
    by_cases h1 : t.pid = pa.pid
    · rw [if_pos h1, show t = pa from pid_inj hnodup ht hpa h1]
    · rw [if_neg h1]
      by_cases h2 : t.pid = pb.pid
      · rw [if_pos h2, show t = pb from pid_inj hnodup ht hpb h2]
      · rw [if_neg h2]
  constructor
  · have he : (w.map g).map Port.pid = w.map Port.pid := by
      rw [List.map_map]
      apply List.map_congr_left
      intro t _
      exact hgpid t
    rw [he]
    exact hnodup
  · intro p' hp'
    obtain ⟨t, ht, rfl⟩ := List.mem_map.mp hp'
    have hmain : ∀ u ∈ w, ((g u).connections.Nodup ∧ (g u).connections ⊆ u.connections) := by
      intro u hu
      rw [hgconn u]
      by_cases h1 : u.pid = pa.pid
      · rw [if_pos h1, show u = pa from pid_inj hnodup hu hpa h1]
        exact ⟨(hport pa hpa).1.erase _, List.erase_subset _ _⟩
      · rw [if_neg h1]
        by_cases h2 : u.pid = pb.pid
        · rw [if_pos h2, show u = pb from pid_inj hnodup hu hpb h2]
          exact ⟨(hport pb hpb).1.erase _, List.erase_subset _ _⟩
        · rw [if_neg h2]
          exact ⟨(hport u hu).1, fun x hx => hx⟩
    refine ⟨(hmain t ht).1, ?_, ?_, ?_⟩
    · rw [hgpid t]
      intro hx
      exact (hport t ht).2.1 ((hmain t ht).2 hx)
    · intro q' hq'
      obtain ⟨s, hs, rfl⟩ := List.mem_map.mp hq'
      rw [hgpid s, hgnode s hs, hgnode t ht]
      intro hx
      exact (hport t ht).2.2.1 s hs ((hmain t ht).2 hx)
    · intro q' hq'
      obtain ⟨s, hs, rfl⟩ := List.mem_map.mp hq'
      rw [hgpid s, hgpid t, hgconn t, hgconn s]
      by_cases ht1 : t.pid = pa.pid
      · rw [if_pos ht1]
        have hta : t = pa := pid_inj hnodup ht hpa ht1
        by_cases hs1 : s.pid = pa.pid
        · rw [if_pos hs1, hta, hs1]
        · rw [if_neg hs1]
          by_cases hs2 : s.pid = pb.pid
          · rw [if_pos hs2, hta, hs2]
            rw [(hport pa hpa).1.mem_erase_iff, (hport pb hpb).1.mem_erase_iff]
            simp
          · rw [if_neg hs2, hta]
            rw [(hport pa hpa).1.mem_erase_iff, and_iff_right hs2]
            exact (hport pa hpa).2.2.2 s hs
      · rw [if_neg ht1]
        by_cases ht2 : t.pid = pb.pid
        · rw [if_pos ht2]
          have htb : t = pb := pid_inj hnodup ht hpb ht2
          by_cases hs1 : s.pid = pa.pid
          · rw [if_pos hs1, htb, hs1]
            rw [(hport pb hpb).1.mem_erase_iff, (hport pa hpa).1.mem_erase_iff]
            simp
          · rw [if_neg hs1]
            by_cases hs2 : s.pid = pb.pid
            · rw [if_pos hs2, htb, hs2]
            · rw [if_neg hs2, htb]
              rw [(hport pb hpb).1.mem_erase_iff, and_iff_right hs1]
              exact (hport pb hpb).2.2.2 s hs
        · rw [if_neg ht2]
          by_cases hs1 : s.pid = pa.pid
          · rw [if_pos hs1, hs1]
            rw [(hport pa hpa).1.mem_erase_iff, and_iff_right ht2]
            exact (hport t ht).2.2.2 pa hpa
          · rw [if_neg hs1]
            by_cases hs2 : s.pid = pb.pid
            · rw [if_pos hs2, hs2]
              rw [(hport pb hpb).1.mem_erase_iff, and_iff_right ht1]
              exact (hport t ht).2.2.2 pb hpb
            · rw [if_neg hs2]
              exact (hport t ht).2.2.2 s hs

/-- Connecting two found, distinct ports preserves the invariant. -/
lemma Inv_connect {w : World} (hw : Inv w) {pa pb : Port}
    (hpa : pa ∈ w) (hpb : pb ∈ w) (hab : pa.pid ≠ pb.pid) :
    Inv (setPort (setPort w (pa.connect_to pb).1) (pa.connect_to pb).2.1) := by
  obtain ⟨hnodup, hport⟩ := hw
  by_cases hcc : pa.can_connect_to pb = true
  · have hnode : pb.node ≠ pa.node := (can_connect_to_facts hcc).2
    have hsym0 : pb.pid ∈ pa.connections ↔ pa.pid ∈ pb.connections :=
      (hport pa hpa).2.2.2 pb hpb
    by_cases hmem : pb.pid ∈ pa.connections
    · have hr : pa.connect_to pb = (pa, pb, true) := by
        unfold Port.connect_to
        rw [if_neg (by simp [hcc])]
        simp [hmem, hsym0.mp hmem]
      rw [hr, setPort_eq_self hnodup hpa, setPort_eq_self hnodup hpb]
      exact ⟨hnodup, hport⟩
    · have hmem' : pa.pid ∉ pb.connections := fun hx => hmem (hsym0.mpr hx)
      have hr : pa.connect_to pb =
          ({ pa with connections := pa.connections ++ [pb.pid] },
           { pb with connections := pb.connections ++ [pa.pid] }, true) := by
        unfold Port.connect_to
        rw [if_neg (by simp [hcc])]
        simp [hmem, hmem']
      rw [hr, setPort_setPort_eq_map]
      · exact Inv_map_augment hnodup hport hpa hpb hab hnode hmem hmem'
      · exact hab
  · have hr : pa.connect_to pb = (pa, pb, false) := by
      unfold Port.connect_to
      rw [if_pos hcc]
    rw [hr, setPort_eq_self hnodup hpa, setPort_eq_self hnodup hpb]
    exact ⟨hnodup, hport⟩

/-- Disconnecting two found, distinct ports preserves the invariant. -/
lemma Inv_disconnect {w : World} (hw : Inv w) {pa pb : Port}
    (hpa : pa ∈ w) (hpb : pb ∈ w) (hab : pa.pid ≠ pb.pid) :
    Inv (setPort (setPort w (pa.disconnect_from pb).1) (pa.disconnect_from pb).2.1) := by
  obtain ⟨hnodup, hport⟩ := hw
  by_cases hmem : pb.pid ∈ pa.connections
  · have hmem' : pa.pid ∈ pb.connections := ((hport pa hpa).2.2.2 pb hpb).mp hmem
    have hr : pa.disconnect_from pb =
        ({ pa with connections := pa.connections.erase pb.pid },
         { pb with connections := pb.connections.erase pa.pid }, true) := by
      unfold Port.disconnect_from
      rw [if_neg (by simp [hmem])]
      simp [hmem']
    rw [hr, setPort_setPort_eq_map]
    · exact Inv_map_erase hnodup hport hpa hpb
    · exact hab
  · have hr : pa.disconnect_from pb = (pa, pb, false) := by
      unfold Port.disconnect_from
      rw [if_pos hmem]
    rw [hr, setPort_eq_self hnodup hpa, setPort_eq_self hnodup hpb]
    exact ⟨hnodup, hport⟩

/-- Every single `Port` operation preserves the invariant. -/
lemma step_preserves_Inv (w : World) (hw : Inv w) (op : PortOp) :
    Inv (step w op) := by
  cases op with
  | connect a b =>
    simp only [step]
    split
    · rename_i pa pb hfa hfb
      by_cases hab : a = b
      · rw [if_pos hab]; exact hw
      · rw [if_neg hab]
        obtain ⟨hpa, hpaid⟩ := findPort_mem hfa
        obtain ⟨hpb, hpbid⟩ := findPort_mem hfb
        have hpp : pa.pid ≠ pb.pid := by rw [hpaid, hpbid]; exact hab
        exact Inv_connect hw hpa hpb hpp
    · exact hw
  | disconnect a b =>
    simp only [step]
    split
    · rename_i pa pb hfa hfb
      obtain ⟨hpa, hpaid⟩ := findPort_mem hfa
      obtain ⟨hpb, hpbid⟩ := findPort_mem hfb
      by_cases hab : a = b
      · rw [if_pos hab]
        have hno : a ∉ pa.connections := by
          rw [← hpaid]; exact (hw.2 pa hpa).2.1
        rw [if_neg hno]
        exact hw
      · rw [if_neg hab]
        have hpp : pa.pid ≠ pb.pid := by rw [hpaid, hpbid]; exact hab
        exact Inv_disconnect hw hpa hpb hpp
    · exact hw

/-- Freshly constructed nodes satisfy the invariant. -/
lemma Inv_of_Fresh {w : World} (h : Fresh w) : Inv w := by
  obtain ⟨h1, h2⟩ := h
  refine ⟨h1, fun p hp => ?_⟩
  have hc := h2 p hp
  refine ⟨by rw [hc]; exact List.nodup_nil, by rw [hc]; exact List.not_mem_nil _, ?_, ?_⟩
  · intro q _ hmem
    rw [hc] at hmem
    cases hmem
  · intro q hq
    rw [hc, h2 q hq]
    simp

/-- C8: any sequence of `connect_to` / `disconnect_from` operations
starting from freshly constructed nodes preserves the port-graph
invariant: no port is ever linked to itself or to a port of its own
node, and every link is present in both peers' connection sets or in
neither. -/
theorem ports_invariant_preserved (w : World) (h : Fresh w) (ops : List PortOp) :
    Inv (ops.foldl step w) := by
  suffices hgen : ∀ v : World, Inv v → Inv (ops.foldl step v) from
    hgen w (Inv_of_Fresh h)
  induction ops with
  | nil => exact fun v hv => hv
  | cons op rest ih =>
    intro v hv
    exact ih (step v op) (step_preserves_Inv v hv op)

/-- Witness for C8: two fresh one-port nodes, connected, disconnected
and reconnected. -/
theorem ports_invariant_preserved_witness :
    Inv (([PortOp.connect 0 1, PortOp.disconnect 0 1, PortOp.connect 0 1]).foldl step
      [⟨0, 0, .OUTPUT, 0, .R, [], true⟩, ⟨1, 1, .INPUT, 0, .R, [], true⟩]) :=
  ports_invariant_preserved _ ⟨by decide, by decide⟩ _

/-! C7: the `connect_to` contract. -/

lemma connect_to_eq {a b : Port} (h : a.can_connect_to b = true) :
    a.connect_to b =
      ((if b.pid ∈ a.connections then a
        else { a with connections := a.connections ++ [b.pid] }),
       (if a.pid ∈ b.connections then b
        else { b with connections := b.connections ++ [a.pid] }), true) := by
  unfold Port.connect_to
  rw [if_neg (by simp [h])]

/-- C7: `connect_to` returns false and changes nothing when
`can_connect_to` fails; otherwise it returns true with each port in the
other's connection set, repeating it is a no-op success, and each peer
appears exactly `max 1 (previous count)` times — so never more than
once when starting from a duplicate-free state. -/
theorem connect_to_spec (a b : Port) :
    (a.can_connect_to b = false → a.connect_to b = (a, b, false))
    ∧ (a.can_connect_to b = true →
        (a.connect_to b).2.2 = true
        ∧ b.pid ∈ (a.connect_to b).1.connections
        ∧ a.pid ∈ (a.connect_to b).2.1.connections
        ∧ (a.connect_to b).1.connect_to (a.connect_to b).2.1 =
            ((a.connect_to b).1, (a.connect_to b).2.1, true)
        ∧ (a.connect_to b).1.connections.count b.pid =
            max 1 (a.connections.count b.pid)
        ∧ (a.connect_to b).2.1.connections.count a.pid =
            max 1 (b.connections.count a.pid)) := by
  constructor
  · intro h
    unfold Port.connect_to
    rw [if_pos (by simp [h])]
  · intro h
    rw [connect_to_eq h]
    by_cases hb : b.pid ∈ a.connections <;> by_cases ha : a.pid ∈ b.connections
    · rw [if_pos hb, if_pos ha]
      refine ⟨rfl, hb, ha, ?_, ?_, ?_⟩
      · rw [connect_to_eq h, if_pos hb, if_pos ha]
      · exact (Nat.max_eq_right (List.count_pos_iff.mpr hb)).symm
      · exact (Nat.max_eq_right (List.count_pos_iff.mpr ha)).symm
    · rw [if_pos hb, if_neg ha]
      refine ⟨rfl, hb, by simp, ?_, ?_, ?_⟩
      · have h2 : a.can_connect_to
            { b with connections := b.connections ++ [a.pid] } = true := h
        rw [connect_to_eq h2, if_pos hb, if_pos (by simp)]
      · exact (Nat.max_eq_right (List.count_pos_iff.mpr hb)).symm
      · rw [List.count_append, List.count_eq_zero_of_not_mem ha]
        simp
    · rw [if_neg hb, if_pos ha]
      refine ⟨rfl, by simp, ha, ?_, ?_, ?_⟩
      · have h2 : Port.can_connect_to
            { a with connections := a.connections ++ [b.pid] } b = true := h
        rw [connect_to_eq h2, if_pos (by simp), if_pos ha]
      · rw [List.count_append, List.count_eq_zero_of_not_mem hb]
        simp
      · exact (Nat.max_eq_right (List.count_pos_iff.mpr ha)).symm
    · rw [if_neg hb, if_neg ha]
      refine ⟨rfl, by simp, by simp, ?_, ?_, ?_⟩
      · have h2 : Port.can_connect_to
            { a with connections := a.connections ++ [b.pid] }
            { b with connections := b.connections ++ [a.pid] } = true := h
        rw [connect_to_eq h2, if_pos (by simp), if_pos (by simp)]
      · rw [List.count_append, List.count_eq_zero_of_not_mem hb]
        simp
      · rw [List.count_append, List.count_eq_zero_of_not_mem ha]
        simp

/-- Witness for C7: an output port and an input port of two distinct
nodes, same type, both enabled, initially unconnected. -/
theorem connect_to_spec_witness :
    (Port.connect_to ⟨0, 0, .OUTPUT, 0, .R, [], true⟩
        ⟨1, 1, .INPUT, 0, .R, [], true⟩).2.2 = true
    ∧ (1 : Nat) ∈ (Port.connect_to ⟨0, 0, .OUTPUT, 0, .R, [], true⟩
        ⟨1, 1, .INPUT, 0, .R, [], true⟩).1.connections
    ∧ (0 : Nat) ∈ (Port.connect_to ⟨0, 0, .OUTPUT, 0, .R, [], true⟩
        ⟨1, 1, .INPUT, 0, .R, [], true⟩).2.1.connections := by
  have h := (connect_to_spec ⟨0, 0, .OUTPUT, 0, .R, [], true⟩
    ⟨1, 1, .INPUT, 0, .R, [], true⟩).2 (by decide)
  exact ⟨h.1, h.2.1, h.2.2.1⟩

/-! C3: contents of the unit catalog. -/

/-- Counterexample to C3 as stated: the catalog `MATH_UNIT_CONFIGS`
registers only the seven base units — it has seven entries, none of
dimension 8, so the eight biquaternion units are not registered in
it. -/
theorem catalog_has_no_biquaternions :
    MATH_UNIT_CONFIGS.length = 7
    ∧ MATH_UNIT_CONFIGS.map Prod.fst =
        [.R, .C1, .CI, .Q1, .QI, .QJ, .QK]
    ∧ MATH_UNIT_CONFIGS.all (fun p => p.2.ports.length != 8) = true := by
  exact ⟨rfl, rfl, rfl⟩

/-- C3 (amended): the catalog registers exactly the seven base units
R·1, C·1, C·i, Q·1, Q·i, Q·j, Q·k with dimensions 1, 2, 4, and lookup
of each registered tag returns that unit's dimension, title and wiring
table; the eight biquaternion units (titles 1, i, I, iI, J, iJ, K, iK)
exist only as literal wiring tables of dimension-8 GUI classes outside
the catalog. -/
theorem catalog_contents :
    MATH_UNIT_CONFIGS.map Prod.fst =
        [.R, .C1, .CI, .Q1, .QI, .QJ, .QK]
    ∧ (MATH_UNIT_CONFIGS.lookup .R).map
        (fun c => (c.ports.length, c.title, c.wiring_connections)) =
        some (1, "1", [(0, 0, false)])
    ∧ (MATH_UNIT_CONFIGS.lookup .C1).map
        (fun c => (c.ports.length, c.title, c.wiring_connections)) =
        some (2, "1", [(0, 0, false), (1, 1, false)])
    ∧ (MATH_UNIT_CONFIGS.lookup .CI).map
        (fun c => (c.ports.length, c.title, c.wiring_connections)) =
        some (2, "i", [(0, 1, false), (1, 0, true)])
    ∧ (MATH_UNIT_CONFIGS.lookup .Q1).map
        (fun c => (c.ports.length, c.title, c.wiring_connections)) =
        some (4, "1", [(0, 0, false), (1, 1, false), (2, 2, false), (3, 3, false)])
    ∧ (MATH_UNIT_CONFIGS.lookup .QI).map
        (fun c => (c.ports.length, c.title, c.wiring_connections)) =
        some (4, "i", [(0, 1, false), (1, 0, true), (2, 3, false), (3, 2, true)])
    ∧ (MATH_UNIT_CONFIGS.lookup .QJ).map
        (fun c => (c.ports.length, c.title, c.wiring_connections)) =
        some (4, "j", [(0, 2, false), (1, 3, true), (2, 0, true), (3, 1, false)])
    ∧ (MATH_UNIT_CONFIGS.lookup .QK).map
        (fun c => (c.ports.length, c.title, c.wiring_connections)) =
        some (4, "k", [(0, 3, false), (1, 2, false), (2, 1, true), (3, 0, true)])
    ∧ biquaternion_tables.map Prod.fst = ["1", "i", "I", "iI", "J", "iJ", "K", "iK"]
    ∧ biquaternion_tables.all (fun t => t.2.length == 8) = true := by
  exact ⟨rfl, rfl, rfl, rfl, rfl, rfl, rfl, rfl, rfl, rfl⟩

end QuaternionNodes
